import Mathlib

/-!
Verification of the audio capture-and-transcription pipeline in
`src/app/main.py` (FastAPI server around faster-whisper + pyannote).

The Python code is shallowly embedded:

* Raw bytes are `List Nat` (each entry a byte value `< 256`).
* A WAV container written or read through the Python `wave` module is the
  structure `WavFile` holding the mandatory header fields the code touches
  (channel count, sample width in bytes, frame rate) together with the raw
  data chunk.  `pcm16_to_wav_bytes` and `wav_bytes_to_float_np` are the
  functions of the source, translated over that container model.
* `np.float32` sample values are modelled as `ℚ`.  Every float operation the
  code performs on them (dividing an int16 by 32768, linear interpolation on
  the small concrete inputs evaluated here) is exact at the points where the
  theorems below evaluate it.
* Fallible code returns `Except`/`Option`; the Python `try/except` blocks
  become the corresponding `none`/`error` branches.
-/

/-- One WAV container as produced/consumed through the Python `wave` module:
the header fields the source reads plus the raw data chunk bytes. -/
structure WavFile where
  nchannels : Nat
  sampwidth : Nat
  framerate : Nat
  data : List Nat
  deriving DecidableEq

/-- `pcm16_to_wav_bytes` (src/app/main.py:35-43): wraps raw PCM bytes in a
mono 16-bit WAV container at the given sample rate. -/
def pcm16_to_wav_bytes (pcm : List Nat) (sample_rate : Nat) : WavFile :=
  { nchannels := 1, sampwidth := 2, framerate := sample_rate, data := pcm }

/-- Reinterpret a 16-bit little-endian word (given as a `Nat`) as a signed
int16, the way `np.frombuffer(raw, dtype=np.int16)` does. -/
def toInt16 (v : Nat) : Int :=
  if v % 65536 < 32768 then ((v % 65536 : Nat) : Int)
  else ((v % 65536 : Nat) : Int) - 65536

/-- `np.frombuffer(raw, dtype=np.int16)`: pair consecutive bytes
little-endian into signed 16-bit integers, dropping a trailing odd byte
(the `wave` module computes `nframes = len(data) // framesize`, so
`readframes(getnframes())` returns only the even prefix). -/
def bytesToInt16 : List Nat → List Int
  | lo :: hi :: rest => toInt16 (lo + 256 * hi) :: bytesToInt16 rest
  | _ => []

/-- `wav_bytes_to_float_np` (src/app/main.py:45-55): rejects non-mono or
non-16-bit WAVs with the HTTPException detail string, otherwise divides every
int16 sample by 32768.0 and returns the floats with the declared rate. -/
def wav_bytes_to_float_np (w : WavFile) : Except String (List ℚ × Nat) :=
  if w.nchannels ≠ 1 ∨ w.sampwidth ≠ 2 then
    Except.error "Expect mono 16-bit WAV"
  else
    let pcm16 := bytesToInt16 w.data
    if pcm16.length = 0 then Except.ok ([], w.framerate)
    else Except.ok (pcm16.map (fun k : ℤ => (k : ℚ) / 32768), w.framerate)

/-- Little-endian two-byte serialization of a list of int16 sample values:
the form in which a client ships "raw little-endian 16-bit mono PCM". -/
def int16ToBytes : List Int → List Nat
  | [] => []
  | k :: rest =>
      (k.emod 65536).toNat % 256 :: (k.emod 65536).toNat / 256 :: int16ToBytes rest

lemma toInt16_int16ToBytes (k : Int) (hlo : -32768 ≤ k) (hhi : k < 32768) :
    toInt16 ((k.emod 65536).toNat % 256 + 256 * ((k.emod 65536).toNat / 256)) = k := by
  have hmod : (k.emod 65536).toNat % 256 + 256 * ((k.emod 65536).toNat / 256)
      = (k.emod 65536).toNat := Nat.mod_add_div _ _
  rw [hmod]
  have h65536 : (0 : Int) < 65536 := by norm_num
  have hem : 0 ≤ k.emod 65536 := Int.emod_nonneg k (by norm_num)
  have hemlt : k.emod 65536 < 65536 := Int.emod_lt_of_pos k h65536
  have htn : ((k.emod 65536).toNat : Int) = k.emod 65536 := Int.toNat_of_nonneg hem
  rcases le_or_lt 0 k with hk | hk
  · have hself : k.emod 65536 = k := Int.emod_eq_of_lt hk (by omega)
    unfold toInt16
    have hlt : (k.emod 65536).toNat % 65536 < 32768 := by omega
    rw [if_pos hlt]
    omega
  · have hshift : k.emod 65536 = k + 65536 := by
      have h1 : (k + 1 * 65536).emod 65536 = k.emod 65536 := Int.add_mul_emod_self
      have h2 : (k + 1 * 65536).emod 65536 = k + 1 * 65536 :=
        Int.emod_eq_of_lt (by omega) (by omega)
      omega
    unfold toInt16
    have hge : ¬ (k.emod 65536).toNat % 65536 < 32768 := by omega
    rw [if_neg hge]
    omega

lemma bytesToInt16_int16ToBytes (samples : List Int)
    (hb : ∀ k ∈ samples, -32768 ≤ k ∧ k < 32768) :
    bytesToInt16 (int16ToBytes samples) = samples := by
  induction samples with
  | nil => rfl
  | cons k rest ih =>
      have hk := hb k (List.mem_cons_self k rest)
      simp only [int16ToBytes, bytesToInt16]
      rw [toInt16_int16ToBytes k hk.1 hk.2,
        ih (fun x hx => hb x (List.mem_cons_of_mem k hx))]

/-- C1: encoding a non-empty buffer of raw little-endian 16-bit mono PCM at
a positive rate `sr` and decoding the result returns exactly the original
samples each divided by 32768, paired with the same rate `sr`. -/
theorem wav_roundtrip (samples : List Int) (sr : Nat)
    (hne : samples ≠ []) (_hsr : 0 < sr)
    (hb : ∀ k ∈ samples, -32768 ≤ k ∧ k < 32768) :
    wav_bytes_to_float_np (pcm16_to_wav_bytes (int16ToBytes samples) sr)
      = Except.ok (samples.map (fun k : ℤ => (k : ℚ) / 32768), sr) := by
  unfold pcm16_to_wav_bytes wav_bytes_to_float_np
  simp only [bytesToInt16_int16ToBytes samples hb]
  have hlen : samples.length ≠ 0 := by
    intro h
    exact hne (List.eq_nil_of_length_eq_zero h)
  simp [hlen]

/-- Witness for `wav_roundtrip` at a concrete three-sample buffer. -/
theorem wav_roundtrip_witness :
    wav_bytes_to_float_np (pcm16_to_wav_bytes (int16ToBytes [1, -32768, 32767]) 8000)
      = Except.ok (([1, -32768, 32767] : List Int).map (fun k : ℤ => (k : ℚ) / 32768), 8000) :=
  wav_roundtrip [1, -32768, 32767] 8000 (by decide) (by decide) (by decide)

lemma toInt16_bounds (v : Nat) : -32768 ≤ toInt16 v ∧ toInt16 v ≤ 32767 := by
  unfold toInt16
  split <;> omega

lemma bytesToInt16_mem_bounds :
    ∀ (data : List Nat), ∀ k ∈ bytesToInt16 data, -32768 ≤ k ∧ k ≤ 32767
  | [] => by simp [bytesToInt16]
  | [_] => by simp [bytesToInt16]
  | lo :: hi :: rest => by
      intro k hk
      simp only [bytesToInt16, List.mem_cons] at hk
      rcases hk with h | h
      · exact h ▸ toInt16_bounds _
      · exact bytesToInt16_mem_bounds rest k h

/-- C7: `wav_bytes_to_float_np` errors exactly when the container is not
mono 16-bit; otherwise it returns every int16 sample divided by 32768 (all
values in [-1, 1]) with the declared rate, and a zero-length data chunk
yields the empty sample sequence without error. -/
theorem wav_decode_spec (w : WavFile) :
    ((w.nchannels ≠ 1 ∨ w.sampwidth ≠ 2) →
      wav_bytes_to_float_np w = Except.error "Expect mono 16-bit WAV") ∧
    (w.nchannels = 1 → w.sampwidth = 2 →
      wav_bytes_to_float_np w
          = Except.ok ((bytesToInt16 w.data).map (fun k : ℤ => (k : ℚ) / 32768), w.framerate) ∧
      ∀ x ∈ (bytesToInt16 w.data).map (fun k : ℤ => (k : ℚ) / 32768), -1 ≤ x ∧ x ≤ 1) ∧
    (w.data = [] → w.nchannels = 1 → w.sampwidth = 2 →
      wav_bytes_to_float_np w = Except.ok ([], w.framerate)) := by
  refine ⟨fun hbad => ?_, fun h1 h2 => ⟨?_, ?_⟩, fun hd h1 h2 => ?_⟩
  · unfold wav_bytes_to_float_np
    rw [if_pos hbad]
  · unfold wav_bytes_to_float_np
    rw [if_neg (by simp [h1, h2])]
    by_cases hz : (bytesToInt16 w.data).length = 0
    · simp only [hz, if_pos rfl]
      rw [List.length_eq_zero.mp hz]
      rfl
    · simp [hz]
  · intro x hx
    rw [List.mem_map] at hx
    obtain ⟨k, hk, hke⟩ := hx
    subst hke
    have hb := bytesToInt16_mem_bounds w.data k hk
    constructor
    · rw [le_div_iff₀ (by norm_num : (0:ℚ) < 32768)]
      have : (-32768 : ℚ) ≤ (k : ℚ) := by exact_mod_cast hb.1
      linarith
    · rw [div_le_one (by norm_num : (0:ℚ) < 32768)]
      have : (k : ℚ) ≤ 32767 := by exact_mod_cast hb.2
      linarith
  · unfold wav_bytes_to_float_np
    rw [if_neg (by simp [h1, h2])]
    simp [hd, bytesToInt16]

/-- Witness for `wav_decode_spec`: a stereo container is rejected, and a
mono 16-bit container with an empty data chunk decodes to no samples. -/
theorem wav_decode_spec_witness :
    wav_bytes_to_float_np ⟨2, 2, 8000, []⟩ = Except.error "Expect mono 16-bit WAV" ∧
    wav_bytes_to_float_np ⟨1, 2, 8000, []⟩ = Except.ok ([], 8000) :=
  ⟨(wav_decode_spec ⟨2, 2, 8000, []⟩).1 (by decide),
   (wav_decode_spec ⟨1, 2, 8000, []⟩).2.2 rfl rfl rfl⟩

/-- A recognition segment: the dict `{start, end, text}` built by
`run_whisper`.  The Python key `end` is spelled `endTime` here because `end`
is reserved in Lean. -/
structure SttSeg where
  start : ℚ
  endTime : ℚ
  text : String
  deriving DecidableEq

/-- A diarization segment: the dict `{start, end, speaker}` produced by
`run_diarization`. -/
structure SpkSeg where
  start : ℚ
  endTime : ℚ
  speaker : String
  deriving DecidableEq

/-- A recognition segment after `assign_speakers` added its `speaker` key. -/
structure LabeledSeg where
  start : ℚ
  endTime : ℚ
  text : String
  speaker : String
  deriving DecidableEq

def TARGET_SAMPLE_RATE : Nat := 16000

/-- `new_length` in `run_whisper` (src/app/main.py:96-97):
`int(duration * TARGET_SAMPLE_RATE)` with `duration = len(audio) / sr`.
Python `int()` truncates toward zero; the argument is nonnegative here, so
truncation coincides with the floor. -/
def new_length (n sr : Nat) : Int :=
  ⌊(n : ℚ) / (sr : ℚ) * (TARGET_SAMPLE_RATE : ℚ)⌋

/-- `np.interp` applied to one query point over the strictly increasing
abscissae paired with their ordinates: clamps outside the covered range and
interpolates linearly between neighbours. -/
def interpSeg : List (ℚ × ℚ) → ℚ → ℚ
  | [], _ => 0
  | [(_, f0)], _ => f0
  | (x0, f0) :: (x1, f1) :: rest, x =>
      if x ≤ x0 then f0
      else if x ≤ x1 then f0 + (f1 - f0) * (x - x0) / (x1 - x0)
      else interpSeg ((x1, f1) :: rest) x

/-- The resampling branch of `run_whisper` (src/app/main.py:94-102):
`xp = linspace(0, duration, num=n, endpoint=False)`,
`x_new = linspace(0, duration, num=new_length, endpoint=False)`,
`audio = np.interp(x_new, xp, audio)`. -/
def resampled (audio : List ℚ) (sr : Nat) : List ℚ :=
  let n := audio.length
  let duration : ℚ := (n : ℚ) / (sr : ℚ)
  let nl := (new_length n sr).toNat
  let xp := (List.range n).map (fun i : ℕ => (i : ℚ) * duration / (n : ℚ))
  (List.range nl).map
    (fun j : ℕ => interpSeg (xp.zip audio) ((j : ℚ) * duration / (nl : ℚ)))

/-- The output loop of `run_whisper` (src/app/main.py:110-119): strip each
segment text and drop segments whose stripped text is empty. -/
def sttPost (segs : List SttSeg) : List SttSeg :=
  segs.filterMap (fun g =>
    let t := g.text.trim
    if t = "" then none else some ⟨g.start, g.endTime, t⟩)

/-- `run_whisper` (src/app/main.py:89-120), parameterized by the external
faster-whisper engine `model` (normalized floats in, raw segments out):
decode the WAV, return `[]` on empty audio, resample to 16 kHz when the
declared rate differs (returning `[]` when the target length is ≤ 0), call
the engine and post-process its segments. -/
def run_whisper (model : List ℚ → List SttSeg) (w : WavFile) :
    Except String (List SttSeg) :=
  match wav_bytes_to_float_np w with
  | Except.error d => Except.error d
  | Except.ok (audio, sr) =>
      if audio.length = 0 then Except.ok []
      else if sr ≠ TARGET_SAMPLE_RATE then
        if new_length audio.length sr ≤ 0 then Except.ok []
        else Except.ok (sttPost (model (resampled audio sr)))
      else Except.ok (sttPost (model audio))

/-- `run_diarization` (src/app/main.py:122-128): diarization is stubbed to a
constant single-speaker segment regardless of input. -/
def run_diarization (_w : WavFile) : List SpkSeg :=
  [⟨0, 5, "SPEAKER_00"⟩]

/-- The Python builtin `max` on two floats: keeps the first argument unless
the second is strictly larger. -/
def pymax (a b : ℚ) : ℚ := if a < b then b else a

/-- The Python builtin `min` on two floats: keeps the first argument unless
the second is strictly smaller. -/
def pymin (a b : ℚ) : ℚ := if b < a then b else a

lemma pymax_eq_max (a b : ℚ) : pymax a b = max a b := by
  unfold pymax
  rw [max_def]
  rcases lt_trichotomy a b with h | h | h
  · rw [if_pos h, if_pos (le_of_lt h)]
  · rw [h, if_neg (lt_irrefl b), if_pos (le_refl b)]
  · rw [if_neg (not_lt.mpr (le_of_lt h)), if_neg (not_le.mpr h)]

lemma pymin_eq_min (a b : ℚ) : pymin a b = min a b := by
  unfold pymin
  rw [min_def]
  rcases lt_trichotomy a b with h | h | h
  · rw [if_neg (not_lt.mpr (le_of_lt h)), if_pos (le_of_lt h)]
  · rw [h, if_neg (lt_irrefl b), if_pos (le_refl b)]
  · rw [if_pos h, if_neg (not_le.mpr h)]

/-- `overlap` (src/app/main.py:148-151): `max(0.0, r - l)` with
`l = max(a[0], b[0])`, `r = min(a[1], b[1])`. -/
def overlap (a b : ℚ × ℚ) : ℚ :=
  pymax (0 : ℚ) (pymin a.2 b.2 - pymax a.1 b.1)

/-- The overlap the assignment loop computes between one recognition
segment and one diarization segment. -/
def segOv (s : SttSeg) (d : SpkSeg) : ℚ :=
  overlap (s.start, s.endTime) (d.start, d.endTime)

/-- The inner loop of `assign_speakers` (src/app/main.py:137-143): the two
loop variables `(best, best_ov)` start at `(None, 0.0)` and are replaced
whenever a strictly larger overlap appears. -/
def bestLoop (s : SttSeg) : List SpkSeg → Option SpkSeg × ℚ → Option SpkSeg × ℚ
  | [], acc => acc
  | d :: rest, acc =>
      if acc.2 < segOv s d then bestLoop s rest (some d, segOv s d)
      else bestLoop s rest acc

/-- The per-segment body of `assign_speakers` (src/app/main.py:144):
`s["speaker"] = best["speaker"] if best else "SPEAKER_00"`. -/
def assignOne (s : SttSeg) (spk : List SpkSeg) : LabeledSeg :=
  match (bestLoop s spk (none, 0)).1 with
  | some d => ⟨s.start, s.endTime, s.text, d.speaker⟩
  | none => ⟨s.start, s.endTime, s.text, "SPEAKER_00"⟩

/-- `assign_speakers` (src/app/main.py:130-146). -/
def assign_speakers (stt : List SttSeg) (spk : List SpkSeg) : List LabeledSeg :=
  match spk with
  | [] => stt.map (fun s => ⟨s.start, s.endTime, s.text, "SPEAKER_00"⟩)
  | d :: ds => stt.map (fun s => assignOne s (d :: ds))

lemma segOv_nonneg (s : SttSeg) (d : SpkSeg) : 0 ≤ segOv s d := by
  unfold segOv overlap
  rw [pymax_eq_max]
  exact le_max_left 0 _

/-- The overlap computed by the loop is the formula the specification
states: `max(0, min(endA, endB) − max(startA, startB))`. -/
lemma segOv_formula (s : SttSeg) (d : SpkSeg) :
    segOv s d = max 0 (min s.endTime d.endTime - max s.start d.start) := by
  unfold segOv overlap
  rw [pymax_eq_max, pymin_eq_min, pymax_eq_max]

lemma bestLoop_no_improve (s : SttSeg) :
    ∀ (l : List SpkSeg) (acc : Option SpkSeg × ℚ),
      (∀ d ∈ l, segOv s d ≤ acc.2) → bestLoop s l acc = acc
  | [], _, _ => rfl
  | d :: rest, acc, h => by
      unfold bestLoop
      rw [if_neg (not_lt.mpr (h d (List.mem_cons_self d rest)))]
      exact bestLoop_no_improve s rest acc (fun x hx => h x (List.mem_cons_of_mem d hx))

lemma bestLoop_improve (s : SttSeg) :
    ∀ (l : List SpkSeg) (acc : Option SpkSeg × ℚ),
      (∃ d ∈ l, acc.2 < segOv s d) →
      ∃ j : Fin l.length,
        bestLoop s l acc = (some (l.get j), segOv s (l.get j)) ∧
        acc.2 < segOv s (l.get j) ∧
        (∀ d ∈ l, segOv s d ≤ segOv s (l.get j)) ∧
        (∀ i : Fin l.length, (i : ℕ) < (j : ℕ) → segOv s (l.get i) < segOv s (l.get j))
  | [], _, h => by
      obtain ⟨d, hd, _⟩ := h
      exact absurd hd (List.not_mem_nil d)
  | d :: rest, acc, h => by
      by_cases hd : acc.2 < segOv s d
      · by_cases hrest : ∃ d2 ∈ rest, segOv s d < segOv s d2
        · obtain ⟨j', hj1, hj2, hj3, hj4⟩ :=
            bestLoop_improve s rest (some d, segOv s d) hrest
          refine ⟨j'.succ, ?_, ?_, ?_, ?_⟩
          · unfold bestLoop
            rw [if_pos hd]
            exact hj1
          · exact hd.trans hj2
          · intro x hx
            rcases List.mem_cons.mp hx with rfl | hm
            · exact le_of_lt hj2
            · exact hj3 x hm
          · rintro ⟨i, hi⟩ hlt
            match i, hi, hlt with
            | 0, hi, _ => exact hj2
            | i + 1, hi, hlt =>
                exact hj4 ⟨i, Nat.lt_of_succ_lt_succ hi⟩ (Nat.lt_of_succ_lt_succ hlt)
        · push_neg at hrest
          have hstop := bestLoop_no_improve s rest (some d, segOv s d) hrest
          refine ⟨⟨0, Nat.succ_pos _⟩, ?_, hd, ?_, ?_⟩
          · unfold bestLoop
            rw [if_pos hd]
            exact hstop
          · intro x hx
            rcases List.mem_cons.mp hx with rfl | hm
            · exact le_refl _
            · exact hrest x hm
          · rintro ⟨i, hi⟩ hlt
            exact absurd hlt (Nat.not_lt_zero i)
      · push_neg at hd
        have hex : ∃ d2 ∈ rest, acc.2 < segOv s d2 := by
          obtain ⟨d0, hd0m, hd0⟩ := h
          rcases List.mem_cons.mp hd0m with rfl | hm
          · exact absurd hd0 (not_lt.mpr hd)
          · exact ⟨d0, hm, hd0⟩
        obtain ⟨j', hj1, hj2, hj3, hj4⟩ := bestLoop_improve s rest acc hex
        refine ⟨j'.succ, ?_, ?_, ?_, ?_⟩
        · unfold bestLoop
          rw [if_neg (not_lt.mpr hd)]
          exact hj1
        · exact hj2
        · intro x hx
          rcases List.mem_cons.mp hx with rfl | hm
          · exact hd.trans (le_of_lt hj2)
          · exact hj3 x hm
        · rintro ⟨i, hi⟩ hlt
          match i, hi, hlt with
          | 0, hi, _ => exact lt_of_le_of_lt hd hj2
          | i + 1, hi, hlt =>
              exact hj4 ⟨i, Nat.lt_of_succ_lt_succ hi⟩ (Nat.lt_of_succ_lt_succ hlt)

/-- C3: against a non-empty diarization list, each recognition segment gets
the speaker of the diarization segment with strictly greatest overlap
(`max(0, min(endA,endB) − max(startA,startB))`), earlier-seen candidates
winning ties (every earlier index has strictly smaller overlap than the
chosen one), with the default speaker when the best overlap is 0; and the
tie-break example `(2,4)` vs `(0,3,"A")`, `(3,6,"B")` is labeled `"A"`. -/
theorem assign_speakers_max_overlap (s : SttSeg) (ds : List SpkSeg) (hne : ds ≠ []) :
    (∀ d : SpkSeg, segOv s d = max 0 (min s.endTime d.endTime - max s.start d.start)) ∧
    (∀ stt : List SttSeg, assign_speakers stt ds = stt.map (fun t => assignOne t ds)) ∧
    (∃ j : Fin ds.length,
      (∀ d ∈ ds, segOv s d ≤ segOv s (ds.get j)) ∧
      (∀ i : Fin ds.length, (i : ℕ) < (j : ℕ) → segOv s (ds.get i) < segOv s (ds.get j)) ∧
      (assignOne s ds).speaker
        = (if 0 < segOv s (ds.get j) then (ds.get j).speaker else "SPEAKER_00")) ∧
    assign_speakers [⟨2, 4, "t"⟩] [⟨0, 3, "A"⟩, ⟨3, 6, "B"⟩] = [⟨2, 4, "t", "A"⟩] := by
  refine ⟨fun d => segOv_formula s d, ?_, ?_, ?_⟩
  · intro stt
    cases ds with
    | nil => exact absurd rfl hne
    | cons d ds => rfl
  · by_cases hall : ∀ d ∈ ds, segOv s d ≤ 0
    · have hb := bestLoop_no_improve s ds (none, 0) hall
      have hpos : 0 < ds.length := List.length_pos.mpr hne
      refine ⟨⟨0, hpos⟩, ?_, ?_, ?_⟩
      · intro d hd
        exact (hall d hd).trans (segOv_nonneg s _)
      · rintro ⟨i, hi⟩ hlt
        exact absurd hlt (Nat.not_lt_zero i)
      · have h0 : segOv s (ds.get ⟨0, hpos⟩) = 0 :=
          le_antisymm (hall _ (ds.get_mem 0 hpos)) (segOv_nonneg s _)
        rw [h0, if_neg (lt_irrefl 0)]
        unfold assignOne
        rw [hb]
    · push_neg at hall
      obtain ⟨d0, hd0m, hd0⟩ := hall
      obtain ⟨j, hj1, hj2, hj3, hj4⟩ :=
        bestLoop_improve s ds (none, 0) ⟨d0, hd0m, hd0⟩
      refine ⟨j, hj3, hj4, ?_⟩
      rw [if_pos hj2]
      unfold assignOne
      rw [hj1]
  · norm_num [assign_speakers, assignOne, bestLoop, segOv, overlap, pymax, pymin]

/-- Witness for `assign_speakers_max_overlap` at the concrete tie-break
inputs of the claim. -/
theorem assign_speakers_max_overlap_witness :
    assign_speakers [⟨2, 4, "t"⟩] [⟨0, 3, "A"⟩, ⟨3, 6, "B"⟩] = [⟨2, 4, "t", "A"⟩] :=
  (assign_speakers_max_overlap ⟨2, 4, "t"⟩ [⟨0, 3, "A"⟩, ⟨3, 6, "B"⟩] (by decide)).2.2.2

/-- C8: with an empty diarization list every recognition segment is labeled
with the default speaker `"SPEAKER_00"` and keeps its other fields, and
`assign([{0,1,"hi"}], [])` yields `[{0,1,"hi","SPEAKER_00"}]`. -/
theorem assign_speakers_no_diar (stt : List SttSeg) :
    (assign_speakers stt []).length = stt.length ∧
    List.Forall₂ (fun t r => r = LabeledSeg.mk t.start t.endTime t.text "SPEAKER_00")
      stt (assign_speakers stt []) ∧
    assign_speakers [⟨0, 1, "hi"⟩] [] = [⟨0, 1, "hi", "SPEAKER_00"⟩] := by
  refine ⟨?_, ?_, ?_⟩
  · simp [assign_speakers]
  · simp only [assign_speakers, List.forall₂_map_right_iff]
    exact List.forall₂_same.mpr (fun x _ => rfl)
  · decide

/-- Brace characters, named so they never appear inside string or character
literals in this file. -/
def lbrace : Char := Char.ofNat 123

def rbrace : Char := Char.ofNat 125

/-- A Python value as produced by `json.loads`.  Integer literals decode to
Python ints (`jnum`); literals with a fraction or exponent decode to Python
floats (`jflo`), carried here as the exact decimal rational — the rounding
of that rational to the nearest IEEE double is not modelled, which can only
matter for literals lying within half an ULP of an integer boundary (where
`int()` of the double differs from truncating the exact value). -/
inductive JVal where
  | jnum (n : Int)
  | jflo (q : ℚ)
  | jstr (s : String)
  | jbool (b : Bool)
  | jnull
  | jobj (fields : List (String × JVal))
  | jarr (elems : List JVal)

/-- JSON whitespace accepted by `json.loads`. -/
def jWs (c : Char) : Bool :=
  c = ' ' || c = Char.ofNat 9 || c = Char.ofNat 10 || c = Char.ofNat 13

def skipWs : List Char → List Char
  | [] => []
  | c :: rest => if jWs c then skipWs rest else c :: rest

/-- JSON string escapes (the subset exercised here). -/
def unescape (c : Char) : Option Char :=
  if c = '"' || c = '\\' || c = '/' then some c
  else if c = 'n' then some (Char.ofNat 10)
  else if c = 't' then some (Char.ofNat 9)
  else if c = 'r' then some (Char.ofNat 13)
  else if c = 'b' then some (Char.ofNat 8)
  else if c = 'f' then some (Char.ofNat 12)
  else none

/-- Value of one hexadecimal digit. -/
def hexVal (ch : Char) : Option Nat :=
  let n := ch.toNat
  if 48 ≤ n ∧ n ≤ 57 then some (n - 48)
  else if 97 ≤ n ∧ n ≤ 102 then some (n - 87)
  else if 65 ≤ n ∧ n ≤ 70 then some (n - 55)
  else none

/-- Body of a JSON string literal, after the opening quote: the named
escapes, `\uXXXX` escapes (including surrogate pairs), raw characters from
0x20 up, and — as `json.loads` does in its default strict mode — a parse
failure on unescaped control characters.  Lone surrogate escapes, which
Python admits into its strings, have no Lean `Char` and fail the parse
here; they cannot occur in a frame the config branch would act on, since
`int()` rejects any string containing one. -/
def parseStrBody : List Char → Option (List Char × List Char)
  | [] => none
  | '\\' :: 'u' :: h1 :: h2 :: h3 :: h4 :: rest =>
      match hexVal h1, hexVal h2, hexVal h3, hexVal h4 with
      | some a, some b, some c, some d =>
          let n := ((a * 16 + b) * 16 + c) * 16 + d
          if n < 55296 ∨ 57343 < n then
            match parseStrBody rest with
            | some (s, r) => some (Char.ofNat n :: s, r)
            | none => none
          else if n ≤ 56319 then
            match rest with
            | '\\' :: 'u' :: g1 :: g2 :: g3 :: g4 :: rest2 =>
                match hexVal g1, hexVal g2, hexVal g3, hexVal g4 with
                | some a2, some b2, some c2, some d2 =>
                    let m := ((a2 * 16 + b2) * 16 + c2) * 16 + d2
                    if 56320 ≤ m ∧ m ≤ 57343 then
                      match parseStrBody rest2 with
                      | some (s, r) =>
                          some (Char.ofNat (65536 + (n - 55296) * 1024 + (m - 56320)) :: s, r)
                      | none => none
                    else none
                | _, _, _, _ => none
            | _ => none
          else none
      | _, _, _, _ => none
  | '\\' :: e :: rest2 =>
      match unescape e, parseStrBody rest2 with
      | some ce, some (s, r) => some (ce :: s, r)
      | _, _ => none
  | c :: rest =>
      if c = '"' then some ([], rest)
      else if c.toNat < 32 then none
      else
        match parseStrBody rest with
        | some (s, r) => some (c :: s, r)
        | none => none

/-- Leading decimal digits of a character list, as digit values, with the
remainder. -/
def takeDigits : List Char → List Nat × List Char
  | [] => ([], [])
  | c :: rest =>
      if c.isDigit then
        match takeDigits rest with
        | (ds, r) => ((c.toNat - 48) :: ds, r)
      else ([], c :: rest)

def natOfDigits (ds : List Nat) : Nat :=
  ds.foldl (fun a d => a * 10 + d) 0

/-- Integer part of a JSON number, with the spec's leading-zero rule: a
literal `0`, or a nonzero digit followed by further digits.  `01` therefore
reads as `0` with `1` left over, which then breaks the surrounding grammar
— exactly how Python's `json` scanner fails on such input. -/
def parseIntPart : List Char → Option (Nat × List Char)
  | [] => none
  | c :: rest =>
      if c = '0' then some (0, rest)
      else if c.isDigit then
        match takeDigits rest with
        | (ds, r) => some (natOfDigits ((c.toNat - 48) :: ds), r)
      else none

/-- Optional fraction of a JSON number: a dot followed by at least one
digit; returns its value, its digit count and the remainder.  A dot not
followed by a digit is left unconsumed, as the maximal-munch number regex
of `json.loads` leaves it. -/
def takeFrac : List Char → Option (Nat × Nat × List Char)
  | '.' :: d :: rest =>
      if d.isDigit then
        match takeDigits rest with
        | (ds, r) => some (natOfDigits ((d.toNat - 48) :: ds), ds.length + 1, r)
      else none
  | _ => none

/-- Optional exponent of a JSON number: `e`/`E`, an optional sign, and at
least one digit; left unconsumed when incomplete. -/
def takeExp : List Char → Option (Int × List Char)
  | c :: rest =>
      if c = 'e' ∨ c = 'E' then
        match rest with
        | '+' :: rest2 =>
            match takeDigits rest2 with
            | ([], _) => none
            | (ds, r) => some ((natOfDigits ds : Int), r)
        | '-' :: rest2 =>
            match takeDigits rest2 with
            | ([], _) => none
            | (ds, r) => some (-(natOfDigits ds : Int), r)
        | _ =>
            match takeDigits rest with
            | ([], _) => none
            | (ds, r) => some ((natOfDigits ds : Int), r)
      else none
  | [] => none

def pow10 (e : Int) : ℚ :=
  if 0 ≤ e then ((10 ^ e.toNat : Nat) : ℚ) else 1 / ((10 ^ (-e).toNat : Nat) : ℚ)

def jNegate : JVal → JVal
  | JVal.jnum n => JVal.jnum (-n)
  | JVal.jflo q => JVal.jflo (-q)
  | v => v

/-- An unsigned JSON number: an integer literal decodes to a Python int, a
literal with fraction or exponent to a Python float (its exact decimal
value, see `JVal`). -/
def parseNumAbs (cs : List Char) : Option (JVal × List Char) :=
  match parseIntPart cs with
  | none => none
  | some (ip, r1) =>
      match takeFrac r1 with
      | some (f, k, r2) =>
          match takeExp r2 with
          | some (e, r3) =>
              some (JVal.jflo (((ip : ℚ) + (f : ℚ) / ((10 ^ k : Nat) : ℚ)) * pow10 e), r3)
          | none => some (JVal.jflo ((ip : ℚ) + (f : ℚ) / ((10 ^ k : Nat) : ℚ)), r2)
      | none =>
          match takeExp r1 with
          | some (e, r3) => some (JVal.jflo ((ip : ℚ) * pow10 e), r3)
          | none => some (JVal.jnum (ip : Int), r1)

/-- A JSON number with optional leading minus. -/
def parseNum : List Char → Option (JVal × List Char)
  | '-' :: rest =>
      match parseNumAbs rest with
      | some (v, r) => some (jNegate v, r)
      | none => none
  | cs => parseNumAbs cs

/-- One intermediate result of the JSON parser: a value, an object member
list, or an array element list. -/
inductive PRes where
  | v (x : JVal)
  | ms (x : List (String × JVal))
  | es (x : List JVal)

/-- Recursive-descent JSON parser modelling `json.loads`, written as one
function structurally recursive on a fuel bound so that it evaluates in the
kernel.  `mode` 0 parses a value, 1 an object member list (after the
opening brace and any leading whitespace), 2 an array element list. -/
def parseAny : Nat → Nat → List Char → Option (PRes × List Char)
  | 0, _, _ => none
  | fuel + 1, 0, cs0 =>
      match skipWs cs0 with
      | [] => none
      | c :: cs =>
          if c = lbrace then
            match skipWs cs with
            | c2 :: cs2 =>
                if c2 = rbrace then some (PRes.v (JVal.jobj []), cs2)
                else
                  match parseAny fuel 1 (c2 :: cs2) with
                  | some (PRes.ms ms, r) => some (PRes.v (JVal.jobj ms), r)
                  | _ => none
            | [] => none
          else if c = '[' then
            match skipWs cs with
            | c2 :: cs2 =>
                if c2 = ']' then some (PRes.v (JVal.jarr []), cs2)
                else
                  match parseAny fuel 2 (c2 :: cs2) with
                  | some (PRes.es es, r) => some (PRes.v (JVal.jarr es), r)
                  | _ => none
            | [] => none
          else if c = '"' then
            match parseStrBody cs with
            | some (s, r) => some (PRes.v (JVal.jstr (String.mk s)), r)
            | none => none
          else if c = 't' then
            match cs with
            | 'r' :: 'u' :: 'e' :: r => some (PRes.v (JVal.jbool true), r)
            | _ => none
          else if c = 'f' then
            match cs with
            | 'a' :: 'l' :: 's' :: 'e' :: r => some (PRes.v (JVal.jbool false), r)
            | _ => none
          else if c = 'n' then
            match cs with
            | 'u' :: 'l' :: 'l' :: r => some (PRes.v JVal.jnull, r)
            | _ => none
          else
            match parseNum (c :: cs) with
            | some (v, r) => some (PRes.v v, r)
            | none => none
  | fuel + 1, 1, cs0 =>
      match skipWs cs0 with
      | c :: cs =>
          if c = '"' then
            match parseStrBody cs with
            | some (k, r1) =>
                match skipWs r1 with
                | c1 :: r2 =>
                    if c1 = ':' then
                      match parseAny fuel 0 r2 with
                      | some (PRes.v v, r3) =>
                          match skipWs r3 with
                          | c2 :: r4 =>
                              if c2 = ',' then
                                match parseAny fuel 1 r4 with
                                | some (PRes.ms ms, r5) =>
                                    some (PRes.ms ((String.mk k, v) :: ms), r5)
                                | _ => none
                              else if c2 = rbrace then
                                some (PRes.ms [(String.mk k, v)], r4)
                              else none
                          | [] => none
                      | _ => none
                    else none
                | [] => none
            | none => none
          else none
      | [] => none
  | fuel + 1, _, cs0 =>
      match parseAny fuel 0 cs0 with
      | some (PRes.v v, r) =>
          match skipWs r with
          | c :: r2 =>
              if c = ',' then
                match parseAny fuel 2 r2 with
                | some (PRes.es es, r3) => some (PRes.es (v :: es), r3)
                | _ => none
              else if c = ']' then some (PRes.es [v], r2)
              else none
          | [] => none
      | _ => none

/-- `json.loads`: parse one value and require only whitespace to remain.
The non-standard constants `NaN`/`Infinity`/`-Infinity` that the Python
decoder additionally accepts are not modelled; this cannot change any
session outcome, because `int()` raises on all three, so a config frame
using them is silently ignored either way — which is also what the parse
failure here produces. -/
def json_loads (s : String) : Option JVal :=
  match parseAny (s.length + 1) 0 s.data with
  | some (PRes.v v, r) => if skipWs r = [] then some v else none
  | _ => none

/-- The whitespace Python strips around the argument of `int(str)`: the
Unicode whitespace table (ASCII space, 0x09-0x0D, 0x1C-0x1F, NEL, NBSP and
the Unicode space separators). -/
def pyWs (c : Char) : Bool :=
  let n := c.toNat
  n = 32 || (9 ≤ n && n ≤ 13) || (28 ≤ n && n ≤ 31) || n = 133 || n = 160 ||
  n = 5760 || (8192 ≤ n && n ≤ 8202) || n = 8232 || n = 8233 || n = 8239 ||
  n = 8287 || n = 12288

def skipPyWs : List Char → List Char
  | [] => []
  | c :: rest => if pyWs c then skipPyWs rest else c :: rest

/-- Digit run of a Python `int()` literal after the first digit: decimal
digits with single underscores allowed between digits (PEP 515); a
leading, trailing or doubled underscore raises. -/
def pyIntDigitsAux : Nat → List Char → Option Nat
  | acc, [] => some acc
  | _, ['_'] => none
  | acc, '_' :: c :: rest =>
      if c.isDigit then pyIntDigitsAux (acc * 10 + (c.toNat - 48)) rest else none
  | acc, c :: rest =>
      if c.isDigit then pyIntDigitsAux (acc * 10 + (c.toNat - 48)) rest else none

/-- A complete Python `int()` digit sequence (underscore grouping allowed,
leading zeros allowed). -/
def pyIntDigitsStart : List Char → Option Nat
  | [] => none
  | c :: rest =>
      if c.isDigit then pyIntDigitsAux (c.toNat - 48) rest else none

/-- Python `int()` applied to a string: optional surrounding whitespace,
optional sign, digits with optional underscore grouping.  Digits are
modelled as ASCII 0-9; the further Unicode decimal digits `int()` also
accepts are out of scope. -/
def pyIntStr (s : String) : Option Int :=
  match (skipPyWs (skipPyWs s.data).reverse).reverse with
  | '-' :: rest =>
      match pyIntDigitsStart rest with
      | some n => some (-(n : Int))
      | none => none
  | '+' :: rest =>
      match pyIntDigitsStart rest with
      | some n => some ((n : Int))
      | none => none
  | cs =>
      match pyIntDigitsStart cs with
      | some n => some ((n : Int))
      | none => none

/-- Truncation toward zero of a rational, the behaviour of Python `int()`
on a finite float. -/
def ratTrunc (q : ℚ) : Int := q.num.tdiv (q.den : Int)

/-- Decimal values at or beyond this magnitude round to an IEEE-754
infinity (half an ULP above the largest finite double), on which `int()`
raises `OverflowError`. -/
def doubleInfThreshold : ℚ := (2 ^ 1024 : ℚ) - (2 ^ 971 : ℚ)

/-- Python `int()` on a decoded JSON value: integers pass through, floats
truncate toward zero (raising on the infinities produced by overflowing
literals), booleans coerce to 0/1, numeric strings are parsed; anything
else raises (`none`). -/
def pyIntOf : JVal → Option Int
  | JVal.jnum n => some n
  | JVal.jflo q =>
      if q < doubleInfThreshold ∧ -doubleInfThreshold < q then some (ratTrunc q)
      else none
  | JVal.jbool b => some (if b then 1 else 0)
  | JVal.jstr s => pyIntStr s
  | _ => none

/-- Python dict lookup for a dict built by `json.loads`: duplicate keys keep
the last occurrence. -/
def jGet (fs : List (String × JVal)) (k : String) : Option JVal :=
  fs.foldl (fun acc p => if p.1 = k then some p.2 else acc) none

def isConfigType : Option JVal → Bool
  | some (JVal.jstr s) => s = "config"
  | _ => false

/-- The value `int(cfg.get('sampleRate', current_sr))` of the config branch
(src/app/main.py:234-240), or `none` when that branch raises or never
reaches the conversion (parse failure, not a dict, `type` not `"config"`). -/
def cfgCoerce (cur : Nat) (s : String) : Option Int :=
  match json_loads s with
  | some (JVal.jobj fs) =>
      if isConfigType (jGet fs "type") then
        match jGet fs "sampleRate" with
        | some v => pyIntOf v
        | none => some (cur : Int)
      else none
  | _ => none

/-- The whole config branch of the WebSocket loop: the session rate after a
text frame containing `sampleRate` was handled (exceptions swallowed,
non-positive results ignored). -/
def handleCfg (cur : Nat) (s : String) : Nat :=
  match cfgCoerce cur s with
  | some n => if 0 < n then n.toNat else cur
  | none => cur

/-- Python substring test `needle in hay` on character lists. -/
def strHas (needle : List Char) : List Char → Bool
  | [] => needle.isEmpty
  | c :: rest => needle.isPrefixOf (c :: rest) || strHas needle rest

/-- The end-of-stream test of the WebSocket loop (src/app/main.py:243):
`text == 'end' or text == '{"type":"end"}' or '"type":"end"' in text`
(braces written as \x7b/\x7d). -/
def isEndText (s : String) : Bool :=
  s = "end" || s = "\x7b\"type\":\"end\"\x7d" || strHas "\"type\":\"end\"".data s.data

/-- Per-connection session state of the `ws` handler: accumulated byte
buffer and declared sample rate (initial value 16000). -/
structure WsState where
  buffer : List Nat
  current_sr : Nat
  deriving DecidableEq

/-- One inbound WebSocket message: a binary frame or a text frame. -/
inductive WsMsg where
  | bin (data : List Nat)
  | txt (s : String)
  deriving DecidableEq

/-- One outbound text frame of the `ws` protocol.  `interim` models the
reserved `"partial"` message type, which the handler never constructs. -/
inductive WsOut where
  | interim (segs : List LabeledSeg)
  | finalMsg (segs : List LabeledSeg)
  | errMsg (detail : String)
  deriving DecidableEq

/-- One iteration of the `ws` receive loop (src/app/main.py:221-251),
parameterized by the external recognition engine: returns the next state,
the outbound messages sent during the iteration, and whether the loop
breaks.  Empty binary and empty text payloads are falsy in Python and fall
through; a text frame containing `sampleRate` goes to the config branch
regardless of further content; otherwise the end-of-stream test decides
between finalization and silently ignoring the frame. -/
def wsStep (model : List ℚ → List SttSeg) (st : WsState) (m : WsMsg) :
    WsState × List WsOut × Bool :=
  match m with
  | WsMsg.bin [] => (st, [], false)
  | WsMsg.bin d => ({ st with buffer := st.buffer ++ d }, [], false)
  | WsMsg.txt s =>
      if s = "" then (st, [], false)
      else if strHas "sampleRate".data s.data then
        ({ st with current_sr := handleCfg st.current_sr s }, [], false)
      else if isEndText s then
        let wav := pcm16_to_wav_bytes st.buffer st.current_sr
        match run_whisper model wav with
        | Except.error d => (st, [WsOut.errMsg d], true)
        | Except.ok stt =>
            (st, [WsOut.finalMsg (assign_speakers stt (run_diarization wav))], true)
      else (st, [], false)

/-- The whole `ws` session on a finite inbound trace: run the loop until it
breaks; the end of the list is the disconnect (`WebSocketDisconnect` →
`pass`), which produces no further output. -/
def wsRun (model : List ℚ → List SttSeg) (st : WsState) : List WsMsg → List WsOut
  | [] => []
  | m :: rest =>
      let r := wsStep model st m
      if r.2.2 then r.2.1 else r.2.1 ++ wsRun model r.1 rest

def isFinalOut : WsOut → Bool
  | WsOut.finalMsg _ => true
  | _ => false

def isInterimOut : WsOut → Bool
  | WsOut.interim _ => true
  | _ => false

/-- Number of terminal `"final"` messages in an outbound trace. -/
def countFinal (tr : List WsOut) : Nat := (tr.filter isFinalOut).length

/-- An inbound message that makes the loop enter the finalization branch. -/
def isEndTrigger : WsMsg → Bool
  | WsMsg.bin _ => false
  | WsMsg.txt s => !(s == "") && !(strHas "sampleRate".data s.data) && isEndText s

lemma run_whisper_pcm_ok (model : List ℚ → List SttSeg) (pcm : List Nat) (sr : Nat) :
    ∃ stt, run_whisper model (pcm16_to_wav_bytes pcm sr) = Except.ok stt := by
  unfold run_whisper
  have h : wav_bytes_to_float_np (pcm16_to_wav_bytes pcm sr)
      = (if (bytesToInt16 pcm).length = 0 then Except.ok (([] : List ℚ), sr)
         else Except.ok ((bytesToInt16 pcm).map (fun k : ℤ => (k : ℚ) / 32768), sr)) := by
    unfold pcm16_to_wav_bytes wav_bytes_to_float_np
    rw [if_neg (by simp)]
  by_cases hz : (bytesToInt16 pcm).length = 0
  · rw [h, if_pos hz]
    exact ⟨[], rfl⟩
  · rw [h, if_neg hz]
    dsimp only
    split_ifs <;> exact ⟨_, rfl⟩

/-- Every loop iteration either passes silently (no output, no break) or is
an end trigger that breaks after emitting exactly one `"final"` message. -/
lemma wsStep_cases (model : List ℚ → List SttSeg) (st : WsState) (m : WsMsg) :
    (isEndTrigger m = false ∧ (wsStep model st m).2 = ([], false)) ∨
    (isEndTrigger m = true ∧
      ∃ segs, wsStep model st m = (st, [WsOut.finalMsg segs], true)) := by
  cases m with
  | bin d =>
      cases d with
      | nil => exact Or.inl ⟨rfl, rfl⟩
      | cons b bs => exact Or.inl ⟨rfl, rfl⟩
  | txt s =>
      by_cases h1 : s = ""
      · subst h1
        exact Or.inl ⟨rfl, rfl⟩
      · by_cases h2 : strHas "sampleRate".data s.data = true
        · refine Or.inl ⟨?_, ?_⟩
          · simp [isEndTrigger, h2]
          · simp only [wsStep]
            rw [if_neg h1, if_pos h2]
        · by_cases h3 : isEndText s = true
          · refine Or.inr ⟨?_, ?_⟩
            · simp [isEndTrigger, h1, h2, h3]
            · obtain ⟨stt, hok⟩ := run_whisper_pcm_ok model st.buffer st.current_sr
              refine ⟨assign_speakers stt
                (run_diarization (pcm16_to_wav_bytes st.buffer st.current_sr)), ?_⟩
              simp only [wsStep]
              rw [if_neg h1, if_neg h2, if_pos h3]
              simp only [hok]
          · refine Or.inl ⟨?_, ?_⟩
            · simp [isEndTrigger, h3]
            · simp only [wsStep]
              rw [if_neg h1, if_neg h2, if_neg h3]

lemma countFinal_append (a b : List WsOut) :
    countFinal (a ++ b) = countFinal a + countFinal b := by
  unfold countFinal
  rw [List.filter_append, List.length_append]

lemma wsRun_le_one (model : List ℚ → List SttSeg) :
    ∀ (msgs : List WsMsg) (st : WsState), countFinal (wsRun model st msgs) ≤ 1
  | [], _ => by simp [wsRun, countFinal]
  | m :: rest, st => by
      unfold wsRun
      rcases wsStep_cases model st m with ⟨_, h⟩ | ⟨_, segs, h⟩
      · have h1 : (wsStep model st m).2.1 = [] := by rw [h]
        have h2 : (wsStep model st m).2.2 = false := by rw [h]
        simp only [h1, h2, if_false, List.nil_append, Bool.false_eq_true]
        exact wsRun_le_one model rest (wsStep model st m).1
      · rw [h]
        simp [countFinal, isFinalOut]

lemma wsRun_no_interim (model : List ℚ → List SttSeg) :
    ∀ (msgs : List WsMsg) (st : WsState) (o : WsOut),
      o ∈ wsRun model st msgs → isInterimOut o = false
  | [], _, o => by simp [wsRun]
  | m :: rest, st, o => by
      unfold wsRun
      rcases wsStep_cases model st m with ⟨_, h⟩ | ⟨_, segs, h⟩
      · have h1 : (wsStep model st m).2.1 = [] := by rw [h]
        have h2 : (wsStep model st m).2.2 = false := by rw [h]
        simp only [h1, h2, if_false, List.nil_append, Bool.false_eq_true]
        exact wsRun_no_interim model rest (wsStep model st m).1 o
      · rw [h]
        intro ho
        rcases List.mem_singleton.mp (by simpa using ho) with rfl
        rfl

lemma wsRun_trigger_one (model : List ℚ → List SttSeg) :
    ∀ (msgs : List WsMsg) (st : WsState),
      (∃ m ∈ msgs, isEndTrigger m = true) → countFinal (wsRun model st msgs) = 1
  | [], _ => by
      rintro ⟨m, hm, _⟩
      exact absurd hm (List.not_mem_nil m)
  | m :: rest, st => by
      rintro ⟨m0, hm0, ht0⟩
      unfold wsRun
      rcases wsStep_cases model st m with ⟨hf, h⟩ | ⟨_, segs, h⟩
      · have hmem : m0 ∈ rest := by
          rcases List.mem_cons.mp hm0 with rfl | hmem
          · rw [hf] at ht0
            exact absurd ht0 (by decide)
          · exact hmem
        have h1 : (wsStep model st m).2.1 = [] := by rw [h]
        have h2 : (wsStep model st m).2.2 = false := by rw [h]
        simp only [h1, h2, if_false, List.nil_append, Bool.false_eq_true]
        exact wsRun_trigger_one model rest (wsStep model st m).1 ⟨m0, hmem, ht0⟩
      · rw [h]
        simp [countFinal, isFinalOut]

lemma wsRun_no_trigger_zero (model : List ℚ → List SttSeg) :
    ∀ (msgs : List WsMsg) (st : WsState),
      (∀ m ∈ msgs, isEndTrigger m = false) → countFinal (wsRun model st msgs) = 0
  | [], _ => by
      intro _
      simp [wsRun, countFinal]
  | m :: rest, st => by
      intro hall
      unfold wsRun
      rcases wsStep_cases model st m with ⟨_, h⟩ | ⟨ht, _⟩
      · have h1 : (wsStep model st m).2.1 = [] := by rw [h]
        have h2 : (wsStep model st m).2.2 = false := by rw [h]
        simp only [h1, h2, if_false, List.nil_append, Bool.false_eq_true]
        exact wsRun_no_trigger_zero model rest (wsStep model st m).1
          (fun x hx => hall x (List.mem_cons_of_mem m hx))
      · have := hall m (List.mem_cons_self m rest)
        rw [this] at ht
        exact absurd ht (by decide)

/-- C5: over any session trace, at most one terminal `"final"` message is
emitted — exactly one as soon as the trace contains an end trigger, and
none when the connection ends (disconnects) without one — and no
`"partial"` message is ever sent. -/
theorem ws_terminal_messages (model : List ℚ → List SttSeg) (st : WsState)
    (msgs : List WsMsg) :
    countFinal (wsRun model st msgs) ≤ 1 ∧
    (∀ o ∈ wsRun model st msgs, isInterimOut o = false) ∧
    ((∃ m ∈ msgs, isEndTrigger m = true) → countFinal (wsRun model st msgs) = 1) ∧
    ((∀ m ∈ msgs, isEndTrigger m = false) → countFinal (wsRun model st msgs) = 0) :=
  ⟨wsRun_le_one model msgs st, wsRun_no_interim model msgs st,
   wsRun_trigger_one model msgs st, wsRun_no_trigger_zero model msgs st⟩

/-- Witness for `ws_terminal_messages`: the trace `[bin, "end"]` produces
exactly one final message, and the trace `[bin]` (disconnect) none. -/
theorem ws_terminal_messages_witness :
    countFinal (wsRun (fun _ => []) ⟨[], 16000⟩ [WsMsg.bin [0, 0], WsMsg.txt "end"]) = 1 ∧
    countFinal (wsRun (fun _ => []) ⟨[], 16000⟩ [WsMsg.bin [0, 0]]) = 0 :=
  ⟨(ws_terminal_messages (fun _ => []) ⟨[], 16000⟩ [WsMsg.bin [0, 0], WsMsg.txt "end"]).2.2.1
      ⟨WsMsg.txt "end", by decide, by decide⟩,
   (ws_terminal_messages (fun _ => []) ⟨[], 16000⟩ [WsMsg.bin [0, 0]]).2.2.2
      (by decide)⟩

/-- C4 counterexample: the JSON payload whose `type` field is `"end"`,
written `\x7b"type": "end"\x7d` (with a space, as `json.dumps` and many
clients format it), does not trigger finalization — the session emits
nothing for it, because the code matches on the exact substring
`"type":"end"` rather than parsing the JSON. -/
theorem ws_end_json_payload_ignored :
    wsRun (fun _ => []) ⟨[], 16000⟩ [WsMsg.txt "\x7b\"type\": \"end\"\x7d"] = [] := by
  decide

/-- C4 (amended): a text frame that does not contain the substring
`sampleRate` and passes the end-of-stream test (equals `end`, equals
`\x7b"type":"end"\x7d` exactly, or contains the substring `"type":"end"`)
triggers finalization: the buffer is wrapped as WAV at the session's current
declared rate, recognition output and the diarization output for that WAV
are combined by speaker assignment, exactly one terminal final message with
those segments is emitted, and the loop breaks. -/
theorem ws_end_finalizes (model : List ℚ → List SttSeg) (st : WsState) (s : String)
    (hcfg : strHas "sampleRate".data s.data = false) (hend : isEndText s = true) :
    ∃ stt, run_whisper model (pcm16_to_wav_bytes st.buffer st.current_sr) = Except.ok stt ∧
      wsStep model st (WsMsg.txt s)
        = (st, [WsOut.finalMsg (assign_speakers stt
            (run_diarization (pcm16_to_wav_bytes st.buffer st.current_sr)))], true) := by
  have hne : s ≠ "" := by
    intro h
    rw [h] at hend
    exact absurd hend (by decide)
  obtain ⟨stt, hok⟩ := run_whisper_pcm_ok model st.buffer st.current_sr
  refine ⟨stt, hok, ?_⟩
  simp only [wsStep]
  rw [if_neg hne, if_neg (by simp [hcfg]), if_pos hend]
  simp only [hok]

/-- Witness for `ws_end_finalizes` at the literal `"end"` token. -/
theorem ws_end_finalizes_witness :
    ∃ stt, run_whisper (fun _ => []) (pcm16_to_wav_bytes [] 16000) = Except.ok stt ∧
      wsStep (fun _ => []) ⟨[], 16000⟩ (WsMsg.txt "end")
        = (⟨[], 16000⟩, [WsOut.finalMsg (assign_speakers stt
            (run_diarization (pcm16_to_wav_bytes [] 16000)))], true) :=
  ws_end_finalizes (fun _ => []) ⟨[], 16000⟩ "end" (by decide) (by decide)

lemma assignOne_fields (s : SttSeg) (spk : List SpkSeg) :
    (assignOne s spk).start = s.start ∧ (assignOne s spk).endTime = s.endTime ∧
      (assignOne s spk).text = s.text := by
  unfold assignOne
  cases (bestLoop s spk (none, 0)).1 <;> simp

/-- C10: speaker assignment returns one output per recognition segment, in
order, preserving each segment's `start`, `end` and `text`; only the
`speaker` field is introduced. -/
theorem assign_speakers_frame (stt : List SttSeg) (spk : List SpkSeg) :
    (assign_speakers stt spk).length = stt.length ∧
    List.Forall₂
      (fun t r => r.start = t.start ∧ r.endTime = t.endTime ∧ r.text = t.text)
      stt (assign_speakers stt spk) := by
  cases spk with
  | nil =>
      refine ⟨by simp [assign_speakers], ?_⟩
      simp only [assign_speakers, List.forall₂_map_right_iff]
      exact List.forall₂_same.mpr (fun x _ => ⟨rfl, rfl, rfl⟩)
  | cons d ds =>
      refine ⟨by simp [assign_speakers], ?_⟩
      simp only [assign_speakers, List.forall₂_map_right_iff]
      refine List.forall₂_same.mpr (fun x _ => ?_)
      obtain ⟨h1, h2, h3⟩ := assignOne_fields x (d :: ds)
      exact ⟨h1, h2, h3⟩

/-- One multipart upload to `POST /transcribe`, by the fate of its bytes:
empty content; bytes the `wave` module cannot parse (whose generic exception
is caught and re-raised as a 500); or a parsed WAV container. -/
inductive Upload where
  | emptyU
  | badWav (msg : String)
  | wavU (w : WavFile)
  deriving DecidableEq

/-- An HTTP response of the `/transcribe` endpoint: 200 with segments, or
an error status with a detail string. -/
inductive HResp where
  | ok (segs : List LabeledSeg)
  | err (status : Nat) (detail : String)
  deriving DecidableEq

def HResp.status : HResp → Nat
  | HResp.ok _ => 200
  | HResp.err s _ => s

/-- `transcribe` (src/app/main.py:206-219): empty upload → 400 `Empty
audio`; a container the `wave` module rejects raises a generic exception →
500 with its message; the `HTTPException` raised inside
`wav_bytes_to_float_np` for non-mono/non-16-bit WAVs is re-raised unchanged
(status 400); otherwise recognition → diarization → assignment and a 200
with the labeled segments. -/
def transcribe (model : List ℚ → List SttSeg) (u : Upload) : HResp :=
  match u with
  | Upload.emptyU => HResp.err 400 "Empty audio"
  | Upload.badWav m => HResp.err 500 m
  | Upload.wavU w =>
      match run_whisper model w with
      | Except.error d => HResp.err 400 d
      | Except.ok stt => HResp.ok (assign_speakers stt (run_diarization w))

/-- C9 counterexample: a stereo (non-mono) WAV upload is not empty, yet the
response is a 400 — neither the 200 nor the 500 the claim allows for
non-empty uploads. -/
theorem transcribe_not_only_empty_400 :
    HResp.status (transcribe (fun _ => []) (Upload.wavU ⟨2, 2, 8000, []⟩)) = 400 ∧
    transcribe (fun _ => []) (Upload.wavU ⟨2, 2, 8000, []⟩)
      = HResp.err 400 "Expect mono 16-bit WAV" ∧
    Upload.wavU (⟨2, 2, 8000, []⟩ : WavFile) ≠ Upload.emptyU := by
  refine ⟨?_, ?_, ?_⟩ <;> decide

/-- C9 (amended): `/transcribe` answers 400 `Empty audio` for an empty
upload; 500 with the error detail for an internal failure while reading the
container; 400 `Expect mono 16-bit WAV` when the WAV parses but is not mono
16-bit (the input-format `HTTPException` propagates with its own status);
and otherwise 200 with the recognition segments labeled by speaker
assignment against the diarization output (each segment carrying start,
end, text and speaker by construction). -/
theorem transcribe_spec (model : List ℚ → List SttSeg) (u : Upload) :
    (u = Upload.emptyU → transcribe model u = HResp.err 400 "Empty audio") ∧
    (∀ m, u = Upload.badWav m → transcribe model u = HResp.err 500 m) ∧
    (∀ w, u = Upload.wavU w →
      (∀ d, run_whisper model w = Except.error d →
        transcribe model u = HResp.err 400 d) ∧
      (∀ stt, run_whisper model w = Except.ok stt →
        transcribe model u = HResp.ok (assign_speakers stt (run_diarization w)))) := by
  refine ⟨fun h => by rw [h]; rfl, fun m h => by rw [h]; rfl, fun w h => ⟨?_, ?_⟩⟩
  · intro d hd
    rw [h]
    simp only [transcribe, hd]
  · intro stt hok
    rw [h]
    simp only [transcribe, hok]

/-- Witness for `transcribe_spec`: the empty upload gets its 400, and an
empty mono WAV gets a 200 with no segments. -/
theorem transcribe_spec_witness :
    transcribe (fun _ => []) Upload.emptyU = HResp.err 400 "Empty audio" ∧
    transcribe (fun _ => []) (Upload.wavU ⟨1, 2, 16000, []⟩)
      = HResp.ok (assign_speakers [] (run_diarization ⟨1, 2, 16000, []⟩)) :=
  ⟨(transcribe_spec (fun _ => []) Upload.emptyU).1 rfl,
   ((transcribe_spec (fun _ => []) (Upload.wavU ⟨1, 2, 16000, []⟩)).2.2
      ⟨1, 2, 16000, []⟩ rfl).2 [] rfl⟩
